import Mathlib

/-!
Verification of the WSDL-to-OpenAPI converter (`app.py`).

The development shallowly embeds the core of the application:
  * `map_xsd_to_json_type` — the primitive type mapper (app.py lines 11-22);
  * `zeep_type_to_json_schema` — the recursive type-graph-to-JSON-schema
    compiler (app.py lines 24-68), embedded with an explicit fuel parameter
    so that unbounded recursion of the source becomes `none` for every fuel;
  * the edit-stage update loop with its per-operation `try/except`
    (app.py lines 157-181);
  * the OpenAPI document assembler (app.py lines 183-215);
  * `restart_process` and the session state machine (app.py lines 72-82);
  * `json.dumps` / `json.loads` restricted to the JSON value fragment this
    application manipulates (objects, arrays, strings), as a renderer and a
    recursive-descent parser.

Python dicts are embedded as ordered association lists with
last-write-wins insertion that keeps the original key position
(`dictInsert`), matching CPython dict semantics.
-/

/-- JSON values as manipulated by the application.  Every schema the compiler
emits, and every piece of the assembled OpenAPI document, is built from
objects, arrays and strings only; the model restricts JSON to this fragment
(numeric/boolean/null literals typed by a user are outside the model and
count as unparseable). -/
inductive Json where
  | str (s : String)
  | arr (elems : List Json)
  | obj (fields : List (String × Json))

/-- CPython dict assignment `d[k] = v`: if the key is present, the value is
replaced at the key's original position; otherwise the pair is appended. -/
def dictInsert (k : String) (v : Json) : List (String × Json) → List (String × Json)
  | [] => [(k, v)]
  | (k', v') :: rest => if k' = k then (k, v) :: rest else (k', v') :: dictInsert k v rest

/-- First value stored under a key (Python `d[k]`). -/
def dictLookup {α : Type} (k : String) : List (String × α) → Option α
  | [] => none
  | (k', v') :: rest => if k' = k then some v' else dictLookup k rest

/-- Python `needle in hay` on strings: substring containment. -/
def containsSub (needle : List Char) : List Char → Bool
  | [] => needle.isEmpty
  | c :: rest => needle.isPrefixOf (c :: rest) || containsSub needle rest

/-- Python `str.lower()`. -/
def pyLower (s : String) : String := String.mk (s.data.map Char.toLower)

/-- app.py lines 11-22: maps an XSD primitive type name to a JSON schema
primitive by case-insensitive substring matching, first match wins. -/
def map_xsd_to_json_type (xsd_type_name : String) : Json :=
  let xtype := pyLower xsd_type_name
  if ["int", "long", "short", "integer"].any (fun x => containsSub x.data xtype.data) then
    Json.obj [("type", Json.str "integer")]
  else if ["decimal", "float", "double", "number"].any (fun x => containsSub x.data xtype.data) then
    Json.obj [("type", Json.str "number")]
  else if containsSub "boolean".data xtype.data then
    Json.obj [("type", Json.str "boolean")]
  else if containsSub "datetime".data xtype.data || containsSub "date".data xtype.data then
    Json.obj [("type", Json.str "string"), ("format", Json.str "date-time")]
  else
    Json.obj [("type", Json.str "string")]

/-- `element.max_occurs` of a zeep element: the string `'unbounded'`, an
integer, or `None` (falsy). -/
inductive MaxOccurs where
  | unbounded
  | num (n : Int)
  | noneV
deriving Repr, DecidableEq

/-- A zeep attribute entry `(attr_name, attr_obj)`.  `attrType = none` models
a malformed attribute object whose `.type` access raises (the duck-typed
source guards this with `try/except`). -/
structure XsdAttribute where
  name : String
  attrType : Option String
deriving Repr, DecidableEq

/-- A zeep child-element entry `(name, element)`.  `typeRef` is `element.type`:
`none` is Python `None`, `some i` refers to node `i` of the type graph.
`min_occurs` is an integer or `None`. -/
structure XsdElement where
  name : String
  typeRef : Option Nat
  min_occurs : Option Int
  max_occurs : MaxOccurs
deriving Repr, DecidableEq

/-- One node of the external (possibly cyclic) type graph: `name` is
`str(zeep_type)` as consumed by the primitive mapper, plus the ordered
child elements and attributes. -/
structure XsdType where
  name : String
  elements : List XsdElement
  attributes : List XsdAttribute
deriving Repr, DecidableEq

/-- app.py line 50: wrap the child in an array iff `max_occurs` is truthy and
is `'unbounded'` or an int greater than 1. -/
def wrapsInArray : MaxOccurs → Bool
  | .unbounded => true
  | .num n => n != 0 && decide (n > 1)
  | .noneV => false

/-- app.py line 55: the element is required iff `min_occurs` is truthy and
`int(min_occurs) > 0`. -/
def isRequired : Option Int → Bool
  | some n => n != 0 && decide (n > 0)
  | none => false

/-- app.py lines 43-44: the attribute loop of the `try` block.  A malformed
attribute raises (`Except.error`), aborting the whole block. -/
def mapAttributes : List (String × Json) → List XsdAttribute → Except Unit (List (String × Json))
  | props, [] => .ok props
  | props, a :: rest =>
    match a.attrType with
    | none => .error ()
    | some tname => mapAttributes (dictInsert a.name (map_xsd_to_json_type tname) props) rest

/-- app.py lines 48-53: the property stored for one child element — the
recursively compiled child schema, wrapped in an array schema when
`max_occurs` says so.  `none` propagates exhausted fuel (divergence of the
source's unbounded recursion). -/
def elementProperty (child : Option Nat → Option Json) (e : XsdElement) : Option Json :=
  (child e.typeRef).map (fun childSchema =>
    if wrapsInArray e.max_occurs then
      Json.obj [("type", Json.str "array"), ("items", childSchema)]
    else childSchema)

/-- app.py lines 47-56: the child-element loop.  `child` is the recursive
compilation of `element.type`. -/
def mapElements (child : Option Nat → Option Json) :
    List (String × Json) → List String → List XsdElement →
    Option (List (String × Json) × List String)
  | props, required, [] => some (props, required)
  | props, required, e :: rest =>
    match elementProperty child e with
    | none => none
    | some v =>
      mapElements child (dictInsert e.name v props)
        (if isRequired e.min_occurs then required ++ [e.name] else required) rest

/-- app.py lines 65-68: assemble the object schema, adding `required` only
when nonempty. -/
def mkObjectSchema (props : List (String × Json)) (required : List String) : Json :=
  if required.isEmpty then
    Json.obj [("type", Json.str "object"), ("properties", Json.obj props)]
  else
    Json.obj [("type", Json.str "object"), ("properties", Json.obj props),
      ("required", Json.arr (required.map Json.str))]

/-- app.py line 60: the `_value` synthetic property for attribute-bearing
leaves. -/
def valueProperty : Json :=
  Json.obj [("type", Json.str "string"),
    ("description", Json.str "The text content of the element")]

/-- app.py lines 24-68, `zeep_type_to_json_schema`: the recursive compiler
over the type graph `g`.  The source recursion carries no cycle guard, so the
embedding threads an explicit fuel; `none` means the fuel was exhausted,
i.e. the source recursion reached that depth without returning.  An
out-of-range reference behaves like the falsy case (it cannot arise for the
well-formed graphs used below). -/
def zeep_type_to_json_schema (g : List XsdType) : Nat → Option Nat → Option Json
  | 0, _ => none
  | Nat.succ n, ref =>
    match ref with
    | none => some (Json.obj [("type", Json.str "object"), ("properties", Json.obj [])])
    | some i =>
      match g.get? i with
      | none => some (Json.obj [("type", Json.str "object"), ("properties", Json.obj [])])
      | some t =>
        if t.elements.isEmpty && t.attributes.isEmpty then
          some (map_xsd_to_json_type t.name)
        else
          match mapAttributes [] t.attributes with
          | .error _ => some (Json.obj [("type", Json.str "string")])
          | .ok props0 =>
            match mapElements (fun r => zeep_type_to_json_schema g n r) props0 [] t.elements with
            | none => none
            | some (props1, required) =>
              let props2 :=
                if !t.attributes.isEmpty && t.elements.isEmpty then
                  dictInsert "_value" valueProperty props1
                else props1
              some (mkObjectSchema props2 required)

/-! ### JSON text: `json.dumps` / `json.loads` on the application's fragment -/

/-- The double-quote character. -/
def quoteC : Char := Char.ofNat 34

/-- The backslash character. -/
def backslashC : Char := '\\'

/-- The opening-brace character. -/
def lbraceC : Char := Char.ofNat 123

/-- The closing-brace character. -/
def rbraceC : Char := Char.ofNat 125

/-- Lower-case hexadecimal digit for `n < 16`. -/
def hexDigitChar (n : Nat) : Char :=
  if n < 10 then Char.ofNat (48 + n) else Char.ofNat (87 + n)

/-- JSON string escaping as performed by `json.dumps`: quote and backslash get
a backslash escape, control characters a `\u00XX` escape (the source's short
forms `\n`, `\t`, ... are equivalent spellings accepted by the parser),
everything else is emitted verbatim. -/
def escapeChar (c : Char) : List Char :=
  if c = quoteC then [backslashC, quoteC]
  else if c = backslashC then [backslashC, backslashC]
  else if c.toNat < 32 then
    [backslashC, 'u', '0', '0', hexDigitChar (c.toNat / 16), hexDigitChar (c.toNat % 16)]
  else [c]

/-- A JSON string literal for `s`. -/
def renderString (s : String) : List Char :=
  quoteC :: ((s.data.map escapeChar).flatten ++ [quoteC])

mutual

/-- `json.dumps` on the application's JSON fragment.  `indent=2` in the source
only inserts whitespace, which `json.loads` skips; the model renders the
equivalent compact form. -/
def renderJson : Json → List Char
  | .str s => renderString s
  | .arr xs => '[' :: (renderList xs ++ [']'])
  | .obj fs => lbraceC :: (renderFields fs ++ [rbraceC])

/-- Comma-separated rendering of array elements. -/
def renderList : List Json → List Char
  | [] => []
  | [x] => renderJson x
  | x :: y :: rest => renderJson x ++ (',' :: renderList (y :: rest))

/-- Comma-separated rendering of object members. -/
def renderFields : List (String × Json) → List Char
  | [] => []
  | [(k, v)] => renderString k ++ (':' :: renderJson v)
  | (k, v) :: f :: rest => renderString k ++ (':' :: renderJson v) ++ (',' :: renderFields (f :: rest))

end

/-- JSON insignificant whitespace. -/
def isWsChar (c : Char) : Bool := c = ' ' || c = '\n' || c = '\t' || c = '\r'

/-- Skip leading whitespace. -/
def skipWs : List Char → List Char
  | [] => []
  | c :: rest => if isWsChar c then skipWs rest else c :: rest

/-- Value of a hexadecimal digit. -/
def hexVal (c : Char) : Option Nat :=
  if '0' ≤ c ∧ c ≤ '9' then some (c.toNat - 48)
  else if 'a' ≤ c ∧ c ≤ 'f' then some (c.toNat - 87)
  else if 'A' ≤ c ∧ c ≤ 'F' then some (c.toNat - 55)
  else none

/-- Body of a JSON string literal, after the opening quote: returns the
decoded characters and the input following the closing quote. -/
def parseStrBody : List Char → Option (List Char × List Char)
  | [] => none
  | c :: rest =>
    if c = quoteC then some ([], rest)
    else if c = backslashC then
      match rest with
      | [] => none
      | e :: rest2 =>
        if e = quoteC then (parseStrBody rest2).map (fun p => (quoteC :: p.1, p.2))
        else if e = backslashC then (parseStrBody rest2).map (fun p => (backslashC :: p.1, p.2))
        else if e = '/' then (parseStrBody rest2).map (fun p => ('/' :: p.1, p.2))
        else if e = 'n' then (parseStrBody rest2).map (fun p => ('\n' :: p.1, p.2))
        else if e = 't' then (parseStrBody rest2).map (fun p => ('\t' :: p.1, p.2))
        else if e = 'r' then (parseStrBody rest2).map (fun p => ('\r' :: p.1, p.2))
        else if e = 'b' then (parseStrBody rest2).map (fun p => (Char.ofNat 8 :: p.1, p.2))
        else if e = 'f' then (parseStrBody rest2).map (fun p => (Char.ofNat 12 :: p.1, p.2))
        else if e = 'u' then
          match rest2 with
          | d1 :: d2 :: d3 :: d4 :: rest3 =>
            match hexVal d1, hexVal d2, hexVal d3, hexVal d4 with
            | some h1, some h2, some h3, some h4 =>
              (parseStrBody rest3).map
                (fun p => (Char.ofNat (((h1 * 16 + h2) * 16 + h3) * 16 + h4) :: p.1, p.2))
            | _, _, _, _ => none
          | _ => none
        else none
    else (parseStrBody rest).map (fun p => (c :: p.1, p.2))

mutual

/-- Recursive-descent JSON value parser (`json.loads` on the application's
fragment).  The fuel only bounds nesting-plus-sibling depth; any fuel at
least the size of the value works (`parseVal_renderJson`). -/
def parseVal : Nat → List Char → Option (Json × List Char)
  | 0, _ => none
  | Nat.succ n, cs =>
    match skipWs cs with
    | [] => none
    | c :: rest =>
      if c = quoteC then
        (parseStrBody rest).map (fun p => (Json.str (String.mk p.1), p.2))
      else if c = '[' then
        match skipWs rest with
        | c2 :: rest2 =>
          if c2 = ']' then some (Json.arr [], rest2)
          else (parseElems n (c2 :: rest2)).map (fun p => (Json.arr p.1, p.2))
        | [] => none
      else if c = lbraceC then
        match skipWs rest with
        | c2 :: rest2 =>
          if c2 = rbraceC then some (Json.obj [], rest2)
          else (parseFields n (c2 :: rest2)).map (fun p => (Json.obj p.1, p.2))
        | [] => none
      else none

/-- One or more comma-separated array elements, up to the closing bracket. -/
def parseElems : Nat → List Char → Option (List Json × List Char)
  | 0, _ => none
  | Nat.succ n, cs =>
    match parseVal (Nat.succ n) cs with
    | none => none
    | some (j, r) =>
      match skipWs r with
      | c :: r2 =>
        if c = ',' then (parseElems n r2).map (fun p => (j :: p.1, p.2))
        else if c = ']' then some ([j], r2)
        else none
      | [] => none

/-- One or more comma-separated object members, up to the closing brace. -/
def parseFields : Nat → List Char → Option (List (String × Json) × List Char)
  | 0, _ => none
  | Nat.succ n, cs =>
    match skipWs cs with
    | c :: rest =>
      if c = quoteC then
        match parseStrBody rest with
        | none => none
        | some (k, r) =>
          match skipWs r with
          | c2 :: r2 =>
            if c2 = ':' then
              match parseVal (Nat.succ n) r2 with
              | none => none
              | some (v, r3) =>
                match skipWs r3 with
                | c3 :: r4 =>
                  if c3 = ',' then
                    (parseFields n r4).map (fun p => ((String.mk k, v) :: p.1, p.2))
                  else if c3 = rbraceC then some ([(String.mk k, v)], r4)
                  else none
                | [] => none
            else none
          | [] => none
      else none
    | [] => none

end

/-- `json.loads`: parse a complete JSON document (whole text consumed up to
trailing whitespace), `none` on any parse failure. -/
def parseJson (text : String) : Option Json :=
  match parseVal (text.data.length + 1) text.data with
  | some (j, rest) => if (skipWs rest).isEmpty then some j else none
  | none => none

/-! ### Operation registry, edit stage, assembler, session pipeline -/

/-- One entry of `st.session_state.op_data` (app.py lines 133-138). -/
structure OpRecord where
  request : Json
  response : Json
  incl : Bool
  tag : String

/-- What the user submitted for one operation in the edit stage: the two
text areas and the include checkbox (app.py lines 162-170). -/
structure EditInput where
  reqText : String
  resText : String
  isIncluded : Bool

/-- app.py lines 157-181: the edit loop.  For each operation, in registry
order, `json.loads` both text areas; on success the record is rebuilt from
the submission, on any parse failure an error message naming the operation
is recorded (the model keeps the message prefix; the source appends the
exception text) and the previous record is kept verbatim.  Returns the
updated registry and the error messages. -/
def updated_data : List (String × OpRecord) → (String → EditInput) →
    List (String × OpRecord) × List String
  | [], _ => ([], [])
  | (opName, info) :: rest, inp =>
    let restPair := updated_data rest inp
    match parseJson (inp opName).reqText, parseJson (inp opName).resText with
    | some req, some res =>
      ((opName, ⟨req, res, (inp opName).isIncluded, info.tag⟩) :: restPair.1, restPair.2)
    | _, _ =>
      ((opName, info) :: restPair.1, ("Error in " ++ opName ++ " JSON") :: restPair.2)

/-- app.py lines 197-211: the path item built for one included operation. -/
def pathItem (opName : String) (data : OpRecord) : Json :=
  Json.obj [("post", Json.obj
    [ ("tags", Json.arr [Json.str data.tag]),
      ("summary", Json.str opName),
      ("requestBody", Json.obj
        [("content", Json.obj
          [("application/json", Json.obj [("schema", data.request)])])]),
      ("responses", Json.obj
        [("200", Json.obj
          [ ("description", Json.str "Success"),
            ("content", Json.obj
              [("application/json", Json.obj [("schema", data.response)])])])])])]

/-- app.py lines 195-211: the `paths` mapping — one entry keyed `/name` per
record with a set include flag, skipping excluded records entirely. -/
def pathsOf : List (String × OpRecord) → List (String × Json)
  | [] => []
  | (opName, data) :: rest =>
    if data.incl then ("/" ++ opName, pathItem opName data) :: pathsOf rest
    else pathsOf rest

/-- app.py lines 185-212, `openapi_spec`: the assembled OpenAPI document. -/
def openapi_spec (records : List (String × OpRecord)) : Json :=
  Json.obj
    [ ("openapi", Json.str "3.0.0"),
      ("info", Json.obj
        [ ("title", Json.str "Restructured REST API"),
          ("version", Json.str "1.0.0"),
          ("description", Json.str "Auto-generated REST facade from SOAP WSDL.")]),
      ("paths", Json.obj (pathsOf records))]

/-- `st.session_state.step` (app.py lines 72-73): `upload` is the spec's
`ingest` state, `visualize` the spec's `finalize` state. -/
inductive Step where
  | upload
  | edit
  | visualize
deriving Repr, DecidableEq

/-- The session state: pipeline step, operation registry, final document. -/
structure SessionState where
  step : Step
  op_data : List (String × OpRecord)
  final_spec : Option Json

/-- app.py lines 79-82, `restart_process`: reset the whole session. -/
def restart_process (_s : SessionState) : SessionState :=
  ⟨Step.upload, [], none⟩

/-! ### Theorems -/

/-- A type graph consisting of a single type `T` whose only child element has
type `T` itself — the spec's canonical self-referential input. -/
def selfRefGraph : List XsdType :=
  [⟨"T", [⟨"child", some 0, some 1, MaxOccurs.num 1⟩], []⟩]

/-- C1: the source compiler has no cycle guard, so on the self-referential
type `T` it re-enters `T` at every level: no recursion depth (fuel) suffices
for `zeep_type_to_json_schema` to return — the claimed bounded placeholder
is never produced. -/
theorem self_reference_no_fuel_suffices :
    ∀ fuel : Nat, zeep_type_to_json_schema selfRefGraph fuel (some 0) = none := by
  intro fuel
  induction fuel with
  | zero => rfl
  | succ n ih =>
    simp only [selfRefGraph] at ih ⊢
    simp [zeep_type_to_json_schema, mapAttributes, mapElements, elementProperty, ih]

/-- C7: `restart_process`, invoked from any session state, returns the state
with step `upload` (the ingest stage), an empty operation registry and no
final document. -/
theorem restart_process_resets (s : SessionState) :
    (restart_process s).step = Step.upload ∧
    (restart_process s).op_data = [] ∧
    (restart_process s).final_spec = none :=
  ⟨rfl, rfl, rfl⟩

/-- C3: the primitive mapper is total and deterministic: every input yields
one of the five primitive schemas; matching is on the lower-cased name with
first match winning, in the order integer family, number family, boolean,
date/datetime, plain-string fallback; and the five sample inputs of the spec
map as claimed. -/
theorem map_xsd_total_first_match :
    (∀ s : String,
        map_xsd_to_json_type s = Json.obj [("type", Json.str "integer")] ∨
        map_xsd_to_json_type s = Json.obj [("type", Json.str "number")] ∨
        map_xsd_to_json_type s = Json.obj [("type", Json.str "boolean")] ∨
        map_xsd_to_json_type s = Json.obj [("type", Json.str "string"), ("format", Json.str "date-time")] ∨
        map_xsd_to_json_type s = Json.obj [("type", Json.str "string")]) ∧
    (∀ s : String,
        ["int", "long", "short", "integer"].any
            (fun x => containsSub x.data (pyLower s).data) = true →
        map_xsd_to_json_type s = Json.obj [("type", Json.str "integer")]) ∧
    (∀ s : String,
        ["int", "long", "short", "integer"].any
            (fun x => containsSub x.data (pyLower s).data) = false →
        ["decimal", "float", "double", "number"].any
            (fun x => containsSub x.data (pyLower s).data) = true →
        map_xsd_to_json_type s = Json.obj [("type", Json.str "number")]) ∧
    (∀ s : String,
        ["int", "long", "short", "integer"].any
            (fun x => containsSub x.data (pyLower s).data) = false →
        ["decimal", "float", "double", "number"].any
            (fun x => containsSub x.data (pyLower s).data) = false →
        containsSub "boolean".data (pyLower s).data = true →
        map_xsd_to_json_type s = Json.obj [("type", Json.str "boolean")]) ∧
    (∀ s : String,
        ["int", "long", "short", "integer"].any
            (fun x => containsSub x.data (pyLower s).data) = false →
        ["decimal", "float", "double", "number"].any
            (fun x => containsSub x.data (pyLower s).data) = false →
        containsSub "boolean".data (pyLower s).data = false →
        (containsSub "datetime".data (pyLower s).data = true ∨
         containsSub "date".data (pyLower s).data = true) →
        map_xsd_to_json_type s =
          Json.obj [("type", Json.str "string"), ("format", Json.str "date-time")]) ∧
    (∀ s : String,
        ["int", "long", "short", "integer"].any
            (fun x => containsSub x.data (pyLower s).data) = false →
        ["decimal", "float", "double", "number"].any
            (fun x => containsSub x.data (pyLower s).data) = false →
        containsSub "boolean".data (pyLower s).data = false →
        containsSub "datetime".data (pyLower s).data = false →
        containsSub "date".data (pyLower s).data = false →
        map_xsd_to_json_type s = Json.obj [("type", Json.str "string")]) ∧
    map_xsd_to_json_type "xs:int" = Json.obj [("type", Json.str "integer")] ∧
    map_xsd_to_json_type "xs:decimal" = Json.obj [("type", Json.str "number")] ∧
    map_xsd_to_json_type "xs:boolean" = Json.obj [("type", Json.str "boolean")] ∧
    map_xsd_to_json_type "xs:dateTime" =
      Json.obj [("type", Json.str "string"), ("format", Json.str "date-time")] ∧
    map_xsd_to_json_type "unknown" = Json.obj [("type", Json.str "string")] := by
  refine ⟨fun s => ?_, fun s h1 => ?_, fun s h1 h2 => ?_, fun s h1 h2 h3 => ?_,
    fun s h1 h2 h3 h4 => ?_, fun s h1 h2 h3 h4 h5 => ?_, rfl, rfl, rfl, rfl, rfl⟩
  · simp only [map_xsd_to_json_type]
    split_ifs <;> simp
  · simp [map_xsd_to_json_type, h1]
  · simp [map_xsd_to_json_type, h1, h2]
  · simp [map_xsd_to_json_type, h1, h2, h3]
  · rcases h4 with h4 | h4 <;> simp [map_xsd_to_json_type, h1, h2, h3, h4]
  · simp [map_xsd_to_json_type, h1, h2, h3, h4, h5]

/-- C3 witness: the ordering implications applied at concrete inputs. -/
theorem map_xsd_total_first_match_witness :
    map_xsd_to_json_type "xs:long" = Json.obj [("type", Json.str "integer")] ∧
    map_xsd_to_json_type "xs:double" = Json.obj [("type", Json.str "number")] :=
  ⟨map_xsd_total_first_match.2.1 "xs:long" (by decide),
   map_xsd_total_first_match.2.2.1 "xs:double" (by decide) (by decide)⟩

/-- The spec's complex-type example: required element `a` of primitive string
type, optional repeatable (`maxOccurs` unbounded) element `b` of primitive
integer type. -/
def abExampleGraph : List XsdType :=
  [ ⟨"AB",
      [ ⟨"a", some 1, some 1, MaxOccurs.num 1⟩,
        ⟨"b", some 2, some 0, MaxOccurs.unbounded⟩ ], [] ⟩,
    ⟨"xs:string", [], []⟩,
    ⟨"xs:int", [], []⟩ ]

/-- C4: a child element is wrapped in an array schema exactly when its
declared maximum occurrence is unbounded or a finite integer greater than
one, is marked required exactly when its declared minimum occurrence is
greater than zero, and the spec's a/b example compiles to
`properties = (a : string, b : array of integer)`, `required = [a]`. -/
theorem element_array_wrapping_and_required :
    (∀ m : MaxOccurs,
        wrapsInArray m = true ↔
          (m = MaxOccurs.unbounded ∨ ∃ k : Int, m = MaxOccurs.num k ∧ k > 1)) ∧
    (∀ mo : Option Int, isRequired mo = true ↔ ∃ k : Int, mo = some k ∧ k > 0) ∧
    (∀ (child : Option Nat → Option Json) (props : List (String × Json))
        (required : List String) (e : XsdElement) (cs : Json),
        child e.typeRef = some cs →
        mapElements child props required [e] =
          some (dictInsert e.name
              (if wrapsInArray e.max_occurs then
                Json.obj [("type", Json.str "array"), ("items", cs)]
              else cs) props,
            if isRequired e.min_occurs then required ++ [e.name] else required)) ∧
    zeep_type_to_json_schema abExampleGraph 2 (some 0) =
      some (Json.obj [("type", Json.str "object"),
        ("properties", Json.obj
          [("a", Json.obj [("type", Json.str "string")]),
           ("b", Json.obj [("type", Json.str "array"),
              ("items", Json.obj [("type", Json.str "integer")])])]),
        ("required", Json.arr [Json.str "a"])]) := by
  refine ⟨fun m => ?_, fun mo => ?_, fun child props required e cs h => ?_, rfl⟩
  · cases m with
    | unbounded => simp [wrapsInArray]
    | num k =>
      simp only [wrapsInArray, Bool.and_eq_true, bne_iff_ne, decide_eq_true_eq,
        MaxOccurs.num.injEq]
      constructor
      · rintro ⟨hne, hgt⟩
        exact Or.inr ⟨k, rfl, hgt⟩
      · rintro (h | ⟨k', hk, hgt⟩)
        · exact MaxOccurs.noConfusion h
        · cases hk
          exact ⟨by omega, hgt⟩
    | noneV => simp [wrapsInArray]
  · cases mo with
    | none => simp [isRequired]
    | some k =>
      simp only [isRequired, Bool.and_eq_true, bne_iff_ne, decide_eq_true_eq,
        Option.some.injEq]
      constructor
      · rintro ⟨hne, hgt⟩
        exact ⟨k, rfl, hgt⟩
      · rintro ⟨k', hk, hgt⟩
        cases hk
        exact ⟨by omega, hgt⟩
  · simp [mapElements, elementProperty, h]

/-- C4 witness: an unbounded optional element wrapped in an array and left
out of `required`, via the general part of the theorem. -/
theorem element_array_wrapping_and_required_witness :
    mapElements (fun _ => some (Json.obj [("type", Json.str "integer")])) [] []
        [⟨"b", some 2, some 0, MaxOccurs.unbounded⟩] =
      some ([("b", Json.obj [("type", Json.str "array"),
          ("items", Json.obj [("type", Json.str "integer")])])], []) := by
  have h := element_array_wrapping_and_required.2.2.1
    (fun _ => some (Json.obj [("type", Json.str "integer")])) [] []
    ⟨"b", some 2, some 0, MaxOccurs.unbounded⟩
    (Json.obj [("type", Json.str "integer")]) rfl
  simpa [dictInsert, wrapsInArray, isRequired] using h

/-- Last write wins in a Python dict: looking up a key right after assigning
it yields the assigned value, whatever was stored before. -/
theorem dictLookup_dictInsert_self (k : String) (v : Json) (l : List (String × Json)) :
    dictLookup k (dictInsert k v l) = some v := by
  induction l with
  | nil => simp [dictInsert, dictLookup]
  | cons p rest ih =>
    obtain ⟨k', v'⟩ := p
    by_cases h : k' = k <;> simp [dictInsert, dictLookup, h, ih]

/-- A node whose attribute `x` (integer type) and whose only child element
`x` (string type) share one name. -/
def collisionGraph : List XsdType :=
  [ ⟨"C", [⟨"x", some 1, some 0, MaxOccurs.num 1⟩], [⟨"x", some "xs:int"⟩]⟩,
    ⟨"xs:string", [], []⟩ ]

/-- C8: property assignment is last-write-wins with no merging; attributes
are assigned before child elements, so when an attribute and the child
element share a name the element's compiled schema is the one stored under
that name (the attribute's value `w` is overwritten by the element's `v`). -/
theorem attribute_element_collision_element_wins :
    (∀ (k : String) (v : Json) (props : List (String × Json)),
        dictLookup k (dictInsert k v props) = some v) ∧
    (∀ (g : List XsdType) (fuel i : Nat) (t : XsdType) (e : XsdElement)
        (props0 : List (String × Json)) (w v : Json),
        g.get? i = some t →
        t.elements = [e] →
        mapAttributes [] t.attributes = .ok props0 →
        dictLookup e.name props0 = some w →
        elementProperty (fun r => zeep_type_to_json_schema g fuel r) e = some v →
        ∃ props : List (String × Json),
          zeep_type_to_json_schema g (fuel + 1) (some i) =
            some (mkObjectSchema props
              (if isRequired e.min_occurs then [e.name] else [])) ∧
          props = dictInsert e.name v props0 ∧
          dictLookup e.name props = some v) := by
  refine ⟨dictLookup_dictInsert_self, ?_⟩
  intro g fuel i t e props0 w v hget helems hattrs hlook helem
  refine ⟨dictInsert e.name v props0, ?_, rfl, dictLookup_dictInsert_self _ _ _⟩
  simp only [zeep_type_to_json_schema, hget, helems, hattrs, mapElements, elementProperty] at *
  simp [zeep_type_to_json_schema, hget, helems, hattrs, mapElements, helem]

/-- C8 witness: in `collisionGraph` the compiled node stores the element's
string schema under `x`, not the attribute's integer schema. -/
theorem attribute_element_collision_element_wins_witness :
    zeep_type_to_json_schema collisionGraph 2 (some 0) =
      some (Json.obj [("type", Json.str "object"),
        ("properties", Json.obj [("x", Json.obj [("type", Json.str "string")])])]) := by
  obtain ⟨props, h1, h2, h3⟩ :=
    attribute_element_collision_element_wins.2 collisionGraph 1 0
      ⟨"C", [⟨"x", some 1, some 0, MaxOccurs.num 1⟩], [⟨"x", some "xs:int"⟩]⟩
      ⟨"x", some 1, some 0, MaxOccurs.num 1⟩
      [("x", Json.obj [("type", Json.str "integer")])]
      (Json.obj [("type", Json.str "integer")])
      (Json.obj [("type", Json.str "string")])
      rfl rfl rfl rfl rfl
  subst h2
  simpa [dictInsert, mkObjectSchema, isRequired] using h1

/-- A node with one malformed attribute (`bad`, whose type access raises)
next to a healthy attribute `a1` and a healthy child element `g`. -/
def mixedBranchGraph : List XsdType :=
  [ ⟨"Broken",
      [⟨"g", some 1, some 0, MaxOccurs.num 1⟩],
      [⟨"a1", some "xs:int"⟩, ⟨"bad", none⟩]⟩,
    ⟨"xs:string", [], []⟩ ]

/-- C2 counterexample: with one malformed attribute, the whole node compiles
to the bare permissive string schema — the healthy sibling attribute `a1`
and sibling element `g` do not appear at all (the result has no
`properties` member), contradicting branch-level isolation. -/
theorem branch_failure_not_isolated_cex :
    zeep_type_to_json_schema mixedBranchGraph 2 (some 0) =
      some (Json.obj [("type", Json.str "string")]) ∧
    dictLookup "properties" [("type", Json.str "string")] = none :=
  ⟨rfl, rfl⟩

/-- A parent with a broken child node (malformed attribute) next to a
healthy child. -/
def parentContainGraph : List XsdType :=
  [ ⟨"Parent",
      [ ⟨"broken", some 1, some 0, MaxOccurs.num 1⟩,
        ⟨"ok", some 2, some 0, MaxOccurs.num 1⟩ ], [] ⟩,
    ⟨"Broken", [], [⟨"bad", none⟩]⟩,
    ⟨"xs:int", [], []⟩ ]

/-- C2 amended: a malformed branch degrades the *entire enclosing node* (not
just the branch) to the permissive string schema, discarding its sibling
properties; containment holds one level up — ancestors keep compiling and a
parent records the degraded node as a string schema next to intact
siblings. -/
theorem malformed_branch_degrades_whole_node :
    (∀ (g : List XsdType) (fuel i : Nat) (t : XsdType),
        g.get? i = some t →
        mapAttributes [] t.attributes = .error () →
        zeep_type_to_json_schema g (fuel + 1) (some i) =
          some (Json.obj [("type", Json.str "string")])) ∧
    zeep_type_to_json_schema parentContainGraph 3 (some 0) =
      some (Json.obj [("type", Json.str "object"),
        ("properties", Json.obj
          [("broken", Json.obj [("type", Json.str "string")]),
           ("ok", Json.obj [("type", Json.str "integer")])])]) := by
  refine ⟨?_, rfl⟩
  intro g fuel i t hget herr
  have hne : t.attributes ≠ [] := by
    intro h
    rw [h] at herr
    exact Except.noConfusion herr
  rw [List.get?_eq_getElem?] at hget
  simp [zeep_type_to_json_schema, hget, herr, hne]

/-- C2 amended witness: the degradation rule applied to the broken node of
`parentContainGraph`. -/
theorem malformed_branch_degrades_whole_node_witness :
    zeep_type_to_json_schema parentContainGraph 5 (some 1) =
      some (Json.obj [("type", Json.str "string")]) :=
  malformed_branch_degrades_whole_node.1 parentContainGraph 4 1
    ⟨"Broken", [], [⟨"bad", none⟩]⟩ rfl rfl

/-- Keys missing from an association list look up to nothing. -/
theorem dictLookup_eq_none_of_not_mem {α : Type} (k : String) (l : List (String × α))
    (h : k ∉ l.map Prod.fst) : dictLookup k l = none := by
  induction l with
  | nil => rfl
  | cons p rest ih =>
    obtain ⟨k', v'⟩ := p
    simp only [List.map_cons, List.mem_cons] at h
    push_neg at h
    simp [dictLookup, fun hx : k' = k => (h.1 hx.symm : False), ih h.2, Ne.symm h.1]

/-- Every key of the assembled `paths` mapping is `/` followed by the name of
some record. -/
theorem pathsOf_keys_shape (l : List (String × OpRecord)) (s : String)
    (h : s ∈ (pathsOf l).map Prod.fst) : ∃ p, p ∈ l ∧ s = "/" ++ p.1 := by
  induction l with
  | nil => simp [pathsOf] at h
  | cons p rest ih =>
    obtain ⟨m, q⟩ := p
    by_cases hq : q.incl
    · simp only [pathsOf, hq, if_true, List.map_cons, List.mem_cons] at h
      rcases h with h | h
      · exact ⟨(m, q), by simp, h⟩
      · obtain ⟨p', hp', hs⟩ := ih h
        exact ⟨p', by simp [hp'], hs⟩
    · simp only [pathsOf, hq, if_false] at h
      obtain ⟨p', hp', hs⟩ := ih h
      exact ⟨p', by simp [hp'], hs⟩

/-- Prepending the path separator is injective. -/
theorem slash_key_inj {m n : String} (h : "/" ++ m = "/" ++ n) : m = n := by
  obtain ⟨md⟩ := m
  obtain ⟨nd⟩ := n
  simpa [String.ext_iff] using h

/-- C6: the assembled document's `paths` mapping contains, for each record
with a set include flag, exactly one entry keyed `/` plus the operation
name, holding the full path item (group tag, JSON request body, single 200
response) built from that record — and no entry at all for an excluded
record; the document wraps this mapping with the fixed `info` header. -/
theorem assembler_includes_exactly_included :
    ∀ (records : List (String × OpRecord)) (n : String) (r : OpRecord),
      (records.map Prod.fst).Nodup →
      (n, r) ∈ records →
      (r.incl = true →
        dictLookup ("/" ++ n) (pathsOf records) = some (pathItem n r) ∧
        ((pathsOf records).map Prod.fst).count ("/" ++ n) = 1) ∧
      (r.incl = false →
        dictLookup ("/" ++ n) (pathsOf records) = none ∧
        ((pathsOf records).map Prod.fst).count ("/" ++ n) = 0) ∧
      openapi_spec records = Json.obj
        [ ("openapi", Json.str "3.0.0"),
          ("info", Json.obj
            [ ("title", Json.str "Restructured REST API"),
              ("version", Json.str "1.0.0"),
              ("description", Json.str "Auto-generated REST facade from SOAP WSDL.")]),
          ("paths", Json.obj (pathsOf records))] := by
  intro records
  induction records with
  | nil => intro n r _ hmem; simp at hmem
  | cons p rest ih =>
    intro n r hnodup hmem
    obtain ⟨m, q⟩ := p
    simp only [List.map_cons, List.nodup_cons] at hnodup
    obtain ⟨hm_notin, hnodup_rest⟩ := hnodup
    have hnotkey : ∀ s : String, s ∉ rest.map Prod.fst →
        ("/" ++ s) ∉ (pathsOf rest).map Prod.fst := by
      intro s hs hmemk
      obtain ⟨p', hp', heq⟩ := pathsOf_keys_shape rest _ hmemk
      have hsp : s = p'.1 := slash_key_inj heq
      exact hs (hsp ▸ List.mem_map_of_mem Prod.fst hp')
    rcases List.mem_cons.mp hmem with heq | hmem_rest
    · injection heq with hn hr
      subst hn
      subst hr
      refine ⟨fun hincl => ?_, fun hexcl => ?_, rfl⟩
      · constructor
        · simp [pathsOf, hincl, dictLookup]
        · simp only [pathsOf, hincl, if_true, List.map_cons]
          rw [List.count_cons_self, List.count_eq_zero.mpr (hnotkey n hm_notin)]
      · constructor
        · simp only [pathsOf, hexcl, Bool.false_eq_true, if_false]
          exact dictLookup_eq_none_of_not_mem _ _ (hnotkey n hm_notin)
        · simp only [pathsOf, hexcl, Bool.false_eq_true, if_false]
          exact List.count_eq_zero.mpr (hnotkey n hm_notin)
    · have hn_mem : n ∈ rest.map Prod.fst := List.mem_map_of_mem Prod.fst hmem_rest
      have hmn : ("/" ++ m) ≠ ("/" ++ n) := by
        intro h
        exact hm_notin ((slash_key_inj h) ▸ hn_mem)
      obtain ⟨ih1, ih2, _⟩ := ih n r hnodup_rest hmem_rest
      refine ⟨fun hincl => ?_, fun hexcl => ?_, rfl⟩
      · by_cases hq : q.incl
        · obtain ⟨ihl, ihc⟩ := ih1 hincl
          constructor
          · simpa [pathsOf, hq, dictLookup, hmn] using ihl
          · simpa [pathsOf, hq, List.count_cons, Ne.symm hmn] using ihc
        · simp only [Bool.not_eq_true] at hq
          obtain ⟨ihl, ihc⟩ := ih1 hincl
          constructor
          · simpa [pathsOf, hq] using ihl
          · simpa [pathsOf, hq] using ihc
      · by_cases hq : q.incl
        · obtain ⟨ihl, ihc⟩ := ih2 hexcl
          constructor
          · simpa [pathsOf, hq, dictLookup, hmn] using ihl
          · simpa [pathsOf, hq, List.count_cons, Ne.symm hmn] using ihc
        · simp only [Bool.not_eq_true] at hq
          obtain ⟨ihl, ihc⟩ := ih2 hexcl
          constructor
          · simpa [pathsOf, hq] using ihl
          · simpa [pathsOf, hq] using ihc

/-- An included sample operation. -/
def recA : OpRecord := ⟨Json.obj [], Json.obj [], true, "Svc"⟩

/-- An excluded sample operation. -/
def recB : OpRecord := ⟨Json.obj [], Json.obj [], false, "Svc"⟩

/-- C6 witness: with A included and B excluded, `paths` holds exactly `/A`
and nothing for `/B`. -/
theorem assembler_includes_exactly_included_witness :
    dictLookup ("/" ++ "A") (pathsOf [("A", recA), ("B", recB)]) = some (pathItem "A" recA) ∧
    dictLookup ("/" ++ "B") (pathsOf [("A", recA), ("B", recB)]) = none :=
  ⟨((assembler_includes_exactly_included [("A", recA), ("B", recB)] "A" recA
      (by decide) (List.mem_cons_self _ _)).1 rfl).1,
   ((assembler_includes_exactly_included [("A", recA), ("B", recB)] "B" recB
      (by decide) (List.mem_cons_of_mem _ (List.mem_cons_self _ _))).2.1 rfl).1⟩

/-- The record one edit submission produces for one operation: both text
areas must parse for the update to take effect; otherwise the prior record
is kept whole (app.py lines 172-181). -/
def applyEdit (inp : EditInput) (info : OpRecord) : OpRecord :=
  match parseJson inp.reqText, parseJson inp.resText with
  | some req, some res => ⟨req, res, inp.isIncluded, info.tag⟩
  | _, _ => info

/-- Each operation's updated record is a function of its own prior record
and its own submitted inputs only. -/
theorem dictLookup_updated_data (ops : List (String × OpRecord))
    (inp : String → EditInput) (m : String) :
    dictLookup m (updated_data ops inp).1 =
      (dictLookup m ops).map (applyEdit (inp m)) := by
  induction ops with
  | nil => rfl
  | cons p rest ih =>
    obtain ⟨opName, info⟩ := p
    by_cases h : opName = m
    · subst h
      rcases hr : parseJson (inp opName).reqText with _ | req <;>
        rcases hs : parseJson (inp opName).resText with _ | res <;>
        simp [updated_data, dictLookup, applyEdit, hr, hs]
    · rcases hr : parseJson (inp opName).reqText with _ | req <;>
        rcases hs : parseJson (inp opName).resText with _ | res <;>
        simp [updated_data, dictLookup, applyEdit, hr, hs, h, ih]

/-- A failed submission leaves an error message naming the operation. -/
theorem updated_data_error_mem (ops : List (String × OpRecord))
    (inp : String → EditInput) (n : String) (r : OpRecord)
    (hlook : dictLookup n ops = some r)
    (hfail : parseJson (inp n).reqText = none ∨ parseJson (inp n).resText = none) :
    ("Error in " ++ n ++ " JSON") ∈ (updated_data ops inp).2 := by
  induction ops with
  | nil => exact absurd hlook (by simp [dictLookup])
  | cons p rest ih =>
    obtain ⟨opName, info⟩ := p
    by_cases h : opName = n
    · subst h
      rcases hfail with hf | hf <;>
        rcases hr : parseJson (inp opName).reqText with _ | req <;>
        rcases hs : parseJson (inp opName).resText with _ | res <;>
        simp_all [updated_data]
    · have hlook' : dictLookup n rest = some r := by
        simpa [dictLookup, h] using hlook
      rcases hr : parseJson (inp opName).reqText with _ | req <;>
        rcases hs : parseJson (inp opName).resText with _ | res <;>
        simp [updated_data, hr, hs, ih hlook']

/-- C5: if either submitted text for an operation fails to parse, that
operation's previously stored record is retained unchanged, an error naming
the operation is reported, and every operation's updated record is a
function of its own prior record and own inputs only, so a failure for one
operation is isolated from all others. -/
theorem edit_parse_failure_retains_record :
    ∀ (ops : List (String × OpRecord)) (inp : String → EditInput)
      (n : String) (r : OpRecord),
      dictLookup n ops = some r →
      (parseJson (inp n).reqText = none ∨ parseJson (inp n).resText = none) →
      dictLookup n (updated_data ops inp).1 = some r ∧
      ("Error in " ++ n ++ " JSON") ∈ (updated_data ops inp).2 ∧
      ∀ m : String, dictLookup m (updated_data ops inp).1 =
        (dictLookup m ops).map (applyEdit (inp m)) := by
  intro ops inp n r hlook hfail
  refine ⟨?_, updated_data_error_mem ops inp n r hlook hfail,
    fun m => dictLookup_updated_data ops inp m⟩
  rw [dictLookup_updated_data, hlook]
  have hid : applyEdit (inp n) r = r := by
    rcases hfail with hf | hf <;> rcases h2 : parseJson (inp n).reqText with _ | x <;>
      rcases h3 : parseJson (inp n).resText with _ | y <;> simp_all [applyEdit]
  simp [hid]

/-- A sample operation record with a string-typed request schema. -/
def opRecA : OpRecord := ⟨Json.obj [("type", Json.str "string")], Json.obj [], true, "S"⟩

/-- A second sample operation record. -/
def opRecB : OpRecord := ⟨Json.obj [], Json.obj [], true, "S"⟩

/-- Edit inputs where operation A's request text is invalid JSON. -/
def editInputsBadA : String → EditInput := fun m =>
  if m = "A" then ⟨"not json", "[]", false⟩ else ⟨"[]", "[]", true⟩

/-- C5 witness: submitting invalid request text for A keeps A's record and
reports an error for A, while B is updated from its own inputs. -/
theorem edit_parse_failure_retains_record_witness :
    dictLookup "A" (updated_data [("A", opRecA), ("B", opRecB)] editInputsBadA).1 = some opRecA ∧
    ("Error in " ++ "A" ++ " JSON") ∈ (updated_data [("A", opRecA), ("B", opRecB)] editInputsBadA).2 := by
  obtain ⟨h1, h2, _⟩ := edit_parse_failure_retains_record
    [("A", opRecA), ("B", opRecB)] editInputsBadA "A" opRecA (by simp [dictLookup])
    (Or.inl (by simp [editInputsBadA, parseJson, parseVal, skipWs, isWsChar, quoteC, lbraceC]))
  exact ⟨h1, h2⟩

/-- C10: the revert is atomic at record granularity — if one of the two
texts parses (`some j`) but the other fails, the whole prior record is
restored: the valid edit to the other schema field and the submitted
include flag are discarded together. -/
theorem edit_failure_reverts_atomically :
    ∀ (ops : List (String × OpRecord)) (inp : String → EditInput) (n : String)
      (r : OpRecord) (j : Json),
      dictLookup n ops = some r →
      ((parseJson (inp n).reqText = some j ∧ parseJson (inp n).resText = none) ∨
       (parseJson (inp n).reqText = none ∧ parseJson (inp n).resText = some j)) →
      dictLookup n (updated_data ops inp).1 = some r := by
  intro ops inp n r j hlook hcase
  rw [dictLookup_updated_data, hlook]
  rcases hcase with ⟨h1, h2⟩ | ⟨h1, h2⟩ <;> simp [applyEdit, h1, h2]

/-- Edit inputs where operation A's request text is valid JSON but its
response text is not, and the include checkbox was flipped off. -/
def editInputsHalfA : String → EditInput := fun _ => ⟨"[]", "not json", false⟩

/-- C10 witness: with a valid request edit, an invalid response edit and a
flipped include flag, A's record (including its include flag) is restored
whole. -/
theorem edit_failure_reverts_atomically_witness :
    dictLookup "A" (updated_data [("A", opRecB)] editInputsHalfA).1 = some opRecB :=
  edit_failure_reverts_atomically [("A", opRecB)] editInputsHalfA "A" opRecB
    (Json.arr [])
    (by simp [dictLookup])
    (Or.inl ⟨by simp [editInputsHalfA, parseJson, parseVal, skipWs, isWsChar, quoteC, lbraceC],
      by simp [editInputsHalfA, parseJson, parseVal, skipWs, isWsChar, quoteC, lbraceC]⟩)

/-! ### Render-parse round trip -/

/-- Skipping whitespace before a non-whitespace character is the identity. -/
theorem skipWs_cons (c : Char) (l : List Char) (h : isWsChar c = false) :
    skipWs (c :: l) = c :: l := by
  simp [skipWs, h]

/-- Decoding inverts the hexadecimal digit encoding. -/
theorem hexVal_hexDigitChar (d : Nat) (h : d < 16) :
    hexVal (hexDigitChar d) = some d := by
  interval_cases d <;> rfl

/-- Parsing a string body inverts character escaping. -/
theorem parseStrBody_escape (l : List Char) (rest : List Char) :
    parseStrBody ((l.map escapeChar).flatten ++ (quoteC :: rest)) = some (l, rest) := by
  induction l with
  | nil =>
    rw [List.map_nil, List.flatten_nil, List.nil_append, parseStrBody.eq_def]
    simp
  | cons c l ih =>
    rw [List.map_cons, List.flatten_cons, List.append_assoc]
    by_cases h1 : c = quoteC
    · subst h1
      have he : escapeChar quoteC = [backslashC, quoteC] := by
        simp [escapeChar]
      have hA : ¬(backslashC = quoteC) := by decide
      rw [he, List.cons_append, List.cons_append, List.nil_append, parseStrBody.eq_def]
      simp [hA, ih]
    · by_cases h2 : c = backslashC
      · subst h2
        have he : escapeChar backslashC = [backslashC, backslashC] := by
          simp [escapeChar, backslashC, quoteC]
        have hA : ¬(backslashC = quoteC) := by decide
        rw [he, List.cons_append, List.cons_append, List.nil_append, parseStrBody.eq_def]
        simp [hA, ih]
      · by_cases h3 : c.toNat < 32
        · have hdiv : c.toNat / 16 < 16 := by omega
          have hmod : c.toNat % 16 < 16 := by omega
          have he : escapeChar c =
              [backslashC, 'u', '0', '0',
                hexDigitChar (c.toNat / 16), hexDigitChar (c.toNat % 16)] := by
            simp [escapeChar, h1, h2, h3]
          rw [he]
          simp only [List.cons_append, List.nil_append]
          rw [parseStrBody.eq_def]
          have h0 : hexVal '0' = some 0 := rfl
          have hA : ¬(backslashC = quoteC) := by decide
          have hB : ¬('u' = quoteC) := by decide
          have hC : ¬('u' = backslashC) := by decide
          have harith : c.toNat / 16 * 16 + c.toNat % 16 = c.toNat := by omega
          simp [hA, hB, hC, h0, hexVal_hexDigitChar _ hdiv,
            hexVal_hexDigitChar _ hmod, harith, Char.ofNat_toNat, ih]
        · have he : escapeChar c = [c] := by
            simp [escapeChar, h1, h2, h3]
          rw [he, List.cons_append, List.nil_append, parseStrBody.eq_def]
          simp [h1, h2, ih]

mutual

/-- Fuel sufficient to parse a rendered value. -/
def jsize : Json → Nat
  | .str _ => 1
  | .arr xs => 1 + lsize xs
  | .obj fs => 1 + fsize fs

/-- Fuel sufficient to parse a rendered element list. -/
def lsize : List Json → Nat
  | [] => 0
  | x :: xs => jsize x + 1 + lsize xs

/-- Fuel sufficient to parse a rendered member list. -/
def fsize : List (String × Json) → Nat
  | [] => 0
  | (_, v) :: fs => jsize v + 1 + fsize fs

end

/-- Every value needs at least one unit of fuel. -/
theorem jsize_pos (j : Json) : 1 ≤ jsize j := by
  cases j <;> simp [jsize]

/-- A rendered value starts with a quote, a bracket or a brace — never with
whitespace, a separator or a closing delimiter. -/
theorem renderJson_cons_shape (j : Json) :
    ∃ c cs, renderJson j = c :: cs ∧ isWsChar c = false ∧ c ≠ ']' ∧ c ≠ rbraceC ∧
      c ≠ ',' ∧ c ≠ ':' := by
  cases j with
  | str s =>
    refine ⟨quoteC, (s.data.map escapeChar).flatten ++ [quoteC], ?_,
      by decide, by decide, by decide, by decide, by decide⟩
    simp [renderJson, renderString]
  | arr xs =>
    refine ⟨'[', renderList xs ++ [']'], ?_,
      by decide, by decide, by decide, by decide, by decide⟩
    simp [renderJson]
  | obj fs =>
    refine ⟨lbraceC, renderFields fs ++ [rbraceC], ?_,
      by decide, by decide, by decide, by decide, by decide⟩
    simp [renderJson]

/-- Json values have positive size. -/
theorem json_sizeOf_pos (j : Json) : 1 ≤ sizeOf j := by
  cases j <;> simp

/-- Round trip at every size bound: parsing inverts rendering for values,
nonempty element lists and nonempty member lists. -/
theorem parse_render_main : ∀ N : Nat,
    (∀ j : Json, sizeOf j ≤ N → ∀ (n : Nat) (rest : List Char),
      jsize j ≤ n → parseVal n (renderJson j ++ rest) = some (j, rest)) ∧
    (∀ (x : Json) (xs : List Json), sizeOf x + sizeOf xs ≤ N →
      ∀ (n : Nat) (rest : List Char), lsize (x :: xs) ≤ n →
      parseElems n (renderList (x :: xs) ++ (']' :: rest)) = some (x :: xs, rest)) ∧
    (∀ (k : String) (v : Json) (fs : List (String × Json)), sizeOf v + sizeOf fs ≤ N →
      ∀ (n : Nat) (rest : List Char), fsize ((k, v) :: fs) ≤ n →
      parseFields n (renderFields ((k, v) :: fs) ++ (rbraceC :: rest)) =
        some ((k, v) :: fs, rest)) := by
  intro N
  induction N with
  | zero =>
    refine ⟨fun j hsz => absurd hsz (by have := json_sizeOf_pos j; omega),
      fun x xs hsz => absurd hsz (by have := json_sizeOf_pos x; omega),
      fun k v fs hsz => absurd hsz (by have := json_sizeOf_pos v; omega)⟩
  | succ N ihN =>
    obtain ⟨ihV, ihL, ihF⟩ := ihN
    refine ⟨fun j hsz => ?_, fun x xs hsz => ?_, fun k v fs hsz => ?_⟩
    · cases j with
      | str s =>
        intro n rest h
        obtain ⟨m, rfl⟩ : ∃ m, n = m + 1 :=
          ⟨n - 1, by have := jsize_pos (Json.str s); omega⟩
        obtain ⟨sd⟩ := s
        rw [show renderJson (Json.str (String.mk sd)) =
            quoteC :: ((sd.map escapeChar).flatten ++ [quoteC]) from by
          simp [renderJson, renderString]]
        rw [List.cons_append]
        simp only [parseVal]
        rw [skipWs_cons _ _ (by decide)]
        simp [List.append_assoc, parseStrBody_escape]
      | arr xs =>
        intro n rest h
        obtain ⟨m, rfl⟩ : ∃ m, n = m + 1 :=
          ⟨n - 1, by have := jsize_pos (Json.arr xs); omega⟩
        cases xs with
        | nil =>
          rw [show renderJson (Json.arr []) = '[' :: [']'] from by
            simp [renderJson, renderList]]
          rw [List.cons_append, List.cons_append, List.nil_append]
          simp only [parseVal]
          simp [skipWs, isWsChar, quoteC]
        | cons x xs =>
          rw [show renderJson (Json.arr (x :: xs)) =
              '[' :: (renderList (x :: xs) ++ [']']) from by simp [renderJson]]
          rw [List.cons_append]
          rw [show (renderList (x :: xs) ++ [']']) ++ rest =
              renderList (x :: xs) ++ (']' :: rest) from by simp]
          obtain ⟨c, cs, hc, hws, hne1, hne2, hne3, hne4⟩ := renderJson_cons_shape x
          obtain ⟨T', hT⟩ : ∃ T', renderList (x :: xs) ++ (']' :: rest) = c :: T' := by
            cases xs with
            | nil => exact ⟨cs ++ (']' :: rest), by simp [renderList, hc]⟩
            | cons y ys =>
              exact ⟨cs ++ ((',' :: renderList (y :: ys)) ++ (']' :: rest)), by
                simp [renderList, hc]⟩
          have helems := ihL x xs (by simp at hsz; omega) m rest
            (by simp only [jsize] at h; omega)
          rw [hT, parseVal.eq_def]
          have hsk : skipWs (c :: T') = c :: T' := skipWs_cons c T' hws
          have hbr : ¬('[' = quoteC) := by decide
          have helems2 : parseElems m (c :: T') = some (x :: xs, rest) := by
            rw [← hT]
            exact helems
          simp [skipWs_cons, isWsChar, hsk, hbr, hne1, helems2]
      | obj fs =>
        intro n rest h
        obtain ⟨m, rfl⟩ : ∃ m, n = m + 1 :=
          ⟨n - 1, by have := jsize_pos (Json.obj fs); omega⟩
        cases fs with
        | nil =>
          rw [show renderJson (Json.obj []) = lbraceC :: [rbraceC] from by
            simp [renderJson, renderFields]]
          rw [List.cons_append, List.cons_append, List.nil_append, parseVal.eq_def]
          have h1 : ¬(lbraceC = quoteC) := by decide
          have h2 : ¬(lbraceC = '[') := by decide
          have hsk : skipWs (rbraceC :: rest) = rbraceC :: rest := skipWs_cons _ _ (by decide)
          have hsk0 : skipWs (lbraceC :: rbraceC :: rest) = lbraceC :: rbraceC :: rest :=
            skipWs_cons _ _ (by decide)
          simp [h1, h2, hsk, hsk0]
        | cons kv fs =>
          rw [show renderJson (Json.obj (kv :: fs)) =
              lbraceC :: (renderFields (kv :: fs) ++ [rbraceC]) from by simp [renderJson]]
          rw [List.cons_append]
          rw [show (renderFields (kv :: fs) ++ [rbraceC]) ++ rest =
              renderFields (kv :: fs) ++ (rbraceC :: rest) from by simp]
          obtain ⟨k, v⟩ := kv
          obtain ⟨T', hT⟩ : ∃ T',
              renderFields ((k, v) :: fs) ++ (rbraceC :: rest) = quoteC :: T' := by
            cases fs with
            | nil =>
              exact ⟨((k.data.map escapeChar).flatten ++ [quoteC]) ++
                ((':' :: renderJson v) ++ (rbraceC :: rest)), by
                simp [renderFields, renderString]⟩
            | cons f fs =>
              exact ⟨((k.data.map escapeChar).flatten ++ [quoteC]) ++
                (((':' :: renderJson v) ++ (',' :: renderFields (f :: fs))) ++
                  (rbraceC :: rest)), by simp [renderFields, renderString]⟩
          have hfields := ihF k v fs (by simp at hsz; omega) m rest
            (by simp only [jsize] at h; omega)
          rw [hT, parseVal.eq_def]
          have hsk : skipWs (quoteC :: T') = quoteC :: T' := skipWs_cons _ _ (by decide)
          have h1 : ¬(lbraceC = quoteC) := by decide
          have h2 : ¬(lbraceC = '[') := by decide
          have h3 : ¬(quoteC = rbraceC) := by decide
          have hfields2 : parseFields m (quoteC :: T') = some ((k, v) :: fs, rest) := by
            rw [← hT]
            exact hfields
          have hsk0 : skipWs (lbraceC :: quoteC :: T') = lbraceC :: quoteC :: T' :=
            skipWs_cons _ _ (by decide)
          simp [hsk, hsk0, h1, h2, h3, hfields2]
    · intro n rest h
      obtain ⟨m, rfl⟩ : ∃ m, n = m + 1 :=
        ⟨n - 1, by have := jsize_pos x; simp only [lsize] at h; omega⟩
      cases xs with
      | nil =>
        rw [show renderList [x] = renderJson x from by simp [renderList]]
        simp only [parseElems]
        rw [ihV x (by simp at hsz; omega) (m + 1) (']' :: rest)
          (by simp only [lsize] at h; omega)]
        simp [skipWs, isWsChar]
      | cons y ys =>
        rw [show renderList (x :: y :: ys) =
            renderJson x ++ (',' :: renderList (y :: ys)) from by simp [renderList]]
        rw [show (renderJson x ++ (',' :: renderList (y :: ys))) ++ (']' :: rest) =
            renderJson x ++ (',' :: (renderList (y :: ys) ++ (']' :: rest))) from by simp]
        have hrec := ihL y ys (by simp at hsz; have := json_sizeOf_pos x; omega) m rest
          (by simp only [lsize] at h ⊢; have := jsize_pos x; omega)
        simp only [parseElems]
        rw [ihV x (by simp at hsz; omega) (m + 1) _ (by simp only [lsize] at h; omega)]
        simp [skipWs, isWsChar, hrec]
    · intro n rest h
      obtain ⟨m, rfl⟩ : ∃ m, n = m + 1 :=
        ⟨n - 1, by have := jsize_pos v; simp only [fsize] at h; omega⟩
      obtain ⟨kd⟩ := k
      cases fs with
      | nil =>
        rw [show renderFields [(String.mk kd, v)] =
            (quoteC :: ((kd.map escapeChar).flatten ++ [quoteC])) ++ (':' :: renderJson v)
            from by simp [renderFields, renderString]]
        rw [show ((quoteC :: ((kd.map escapeChar).flatten ++ [quoteC])) ++
              (':' :: renderJson v)) ++ (rbraceC :: rest) =
            quoteC :: ((kd.map escapeChar).flatten ++
              (quoteC :: (':' :: (renderJson v ++ (rbraceC :: rest))))) from by simp]
        rw [parseFields.eq_def]
        have hstr := parseStrBody_escape kd
          (':' :: (renderJson v ++ (rbraceC :: rest)))
        have hval := ihV v (by simp at hsz; omega) (m + 1) (rbraceC :: rest)
          (by simp only [fsize] at h; omega)
        have hsk1 : skipWs (quoteC :: ((kd.map escapeChar).flatten ++
            (quoteC :: (':' :: (renderJson v ++ (rbraceC :: rest)))))) =
            quoteC :: ((kd.map escapeChar).flatten ++
            (quoteC :: (':' :: (renderJson v ++ (rbraceC :: rest))))) :=
          skipWs_cons _ _ (by decide)
        have hsk2 : skipWs (rbraceC :: rest) = rbraceC :: rest := skipWs_cons _ _ (by decide)
        have hf1 : ¬(rbraceC = ',') := by decide
        simp [skipWs_cons, isWsChar, hstr, hval, hsk1, hsk2, hf1]
      | cons f fs =>
        obtain ⟨k2, v2⟩ := f
        rw [show renderFields ((String.mk kd, v) :: (k2, v2) :: fs) =
            (quoteC :: ((kd.map escapeChar).flatten ++ [quoteC])) ++
              ((':' :: renderJson v) ++ (',' :: renderFields ((k2, v2) :: fs)))
            from by simp [renderFields, renderString]]
        rw [show ((quoteC :: ((kd.map escapeChar).flatten ++ [quoteC])) ++
              ((':' :: renderJson v) ++ (',' :: renderFields ((k2, v2) :: fs)))) ++
              (rbraceC :: rest) =
            quoteC :: ((kd.map escapeChar).flatten ++
              (quoteC :: (':' :: (renderJson v ++
                (',' :: (renderFields ((k2, v2) :: fs) ++ (rbraceC :: rest))))))) from by simp]
        rw [parseFields.eq_def]
        have hstr := parseStrBody_escape kd
          (':' :: (renderJson v ++ (',' :: (renderFields ((k2, v2) :: fs) ++ (rbraceC :: rest)))))
        have hval := ihV v (by simp at hsz; omega) (m + 1)
          (',' :: (renderFields ((k2, v2) :: fs) ++ (rbraceC :: rest)))
          (by simp only [fsize] at h; omega)
        have hrec := ihF k2 v2 fs (by simp at hsz; have := json_sizeOf_pos v; omega) m rest
          (by simp only [fsize] at h ⊢; have := jsize_pos v; omega)
        have hsk1 : skipWs (quoteC :: ((kd.map escapeChar).flatten ++
            (quoteC :: (':' :: (renderJson v ++
              (',' :: (renderFields ((k2, v2) :: fs) ++ (rbraceC :: rest)))))))) =
            quoteC :: ((kd.map escapeChar).flatten ++
            (quoteC :: (':' :: (renderJson v ++
              (',' :: (renderFields ((k2, v2) :: fs) ++ (rbraceC :: rest))))))) :=
          skipWs_cons _ _ (by decide)
        simp [skipWs_cons, isWsChar, hstr, hval, hrec, hsk1]

/-- Parsing inverts rendering for any JSON value, for any sufficient fuel. -/
theorem parseVal_render (j : Json) (n : Nat) (rest : List Char)
    (h : jsize j ≤ n) : parseVal n (renderJson j ++ rest) = some (j, rest) :=
  (parse_render_main (sizeOf j)).1 j le_rfl n rest h

/-- The fuel `parseJson` supplies (text length plus one) is enough: a value's
parse fuel is bounded by its rendered length. -/
theorem jsize_le_render : ∀ N : Nat,
    (∀ j : Json, sizeOf j ≤ N → jsize j ≤ (renderJson j).length) ∧
    (∀ (x : Json) (xs : List Json), sizeOf x + sizeOf xs ≤ N →
      lsize (x :: xs) ≤ (renderList (x :: xs)).length + 1) ∧
    (∀ (k : String) (v : Json) (fs : List (String × Json)), sizeOf v + sizeOf fs ≤ N →
      fsize ((k, v) :: fs) ≤ (renderFields ((k, v) :: fs)).length + 1) := by
  intro N
  induction N with
  | zero =>
    refine ⟨fun j hsz => absurd hsz (by have := json_sizeOf_pos j; omega),
      fun x xs hsz => absurd hsz (by have := json_sizeOf_pos x; omega),
      fun k v fs hsz => absurd hsz (by have := json_sizeOf_pos v; omega)⟩
  | succ N ihN =>
    obtain ⟨ihV, ihL, ihF⟩ := ihN
    refine ⟨fun j hsz => ?_, fun x xs hsz => ?_, fun k v fs hsz => ?_⟩
    · cases j with
      | str s =>
        simp [jsize, renderJson, renderString]
      | arr xs =>
        cases xs with
        | nil => simp [jsize, lsize, renderJson, renderList]
        | cons x xs =>
          have := ihL x xs (by simp at hsz; omega)
          simp only [jsize, renderJson] at *
          simp at *
          omega
      | obj fs =>
        cases fs with
        | nil => simp [jsize, fsize, renderJson, renderFields]
        | cons kv fs =>
          obtain ⟨k, v⟩ := kv
          have := ihF k v fs (by simp at hsz; omega)
          simp only [jsize, renderJson] at *
          simp at *
          omega
    · cases xs with
      | nil =>
        have := ihV x (by simp at hsz; omega)
        simp only [lsize, renderList] at *
        simp at *
        omega
      | cons y ys =>
        have h1 := ihV x (by simp at hsz; omega)
        have h2 := ihL y ys (by simp at hsz; have := json_sizeOf_pos x; omega)
        simp only [lsize, renderList] at *
        simp at *
        omega
    · cases fs with
      | nil =>
        have := ihV v (by simp at hsz; omega)
        simp only [fsize, renderFields] at *
        simp at *
        omega
      | cons f fs =>
        obtain ⟨k2, v2⟩ := f
        have h1 := ihV v (by simp at hsz; omega)
        have h2 := ihF k2 v2 fs (by simp at hsz; have := json_sizeOf_pos v; omega)
        simp only [fsize, renderFields] at *
        simp at *
        omega

/-- `json.loads` inverts `json.dumps` on the application's JSON fragment. -/
theorem parseJson_renderJson (j : Json) :
    parseJson (String.mk (renderJson j)) = some j := by
  have hlen : jsize j ≤ (renderJson j).length + 1 := by
    have := (jsize_le_render (sizeOf j)).1 j le_rfl
    omega
  have h := parseVal_render j ((renderJson j).length + 1) [] hlen
  rw [List.append_nil] at h
  simp [parseJson, h, skipWs]

/-- The text the editor displays for a schema: its `json.dumps` output. -/
def renderJsonStr (j : Json) : String := String.mk (renderJson j)

/-- C9: every SchemaNode the compiler produces round-trips — rendering it to
its textual JSON form and re-parsing yields the same value, so the editor
and the compiler agree on representation. -/
theorem compiled_schema_roundtrip :
    ∀ (g : List XsdType) (fuel : Nat) (ref : Option Nat) (j : Json),
      zeep_type_to_json_schema g fuel ref = some j →
      parseJson (renderJsonStr j) = some j := by
  intro g fuel ref j _
  exact parseJson_renderJson j

/-- C9 witness: the compiled a/b example schema round-trips. -/
theorem compiled_schema_roundtrip_witness :
    parseJson (renderJsonStr (Json.obj [("type", Json.str "object"),
      ("properties", Json.obj
        [("a", Json.obj [("type", Json.str "string")]),
         ("b", Json.obj [("type", Json.str "array"),
            ("items", Json.obj [("type", Json.str "integer")])])]),
      ("required", Json.arr [Json.str "a"])])) =
    some (Json.obj [("type", Json.str "object"),
      ("properties", Json.obj
        [("a", Json.obj [("type", Json.str "string")]),
         ("b", Json.obj [("type", Json.str "array"),
            ("items", Json.obj [("type", Json.str "integer")])])]),
      ("required", Json.arr [Json.str "a"])]) :=
  compiled_schema_roundtrip abExampleGraph 2 (some 0) _ rfl
